import Mathlib

/-
Verification of the zenoh shared-memory provider core against its
natural-language specification.

The development shallowly embeds the Rust sources:
  src/commons/zenoh-codec/src/core/shm.rs          (descriptor codec)
  src/commons/zenoh-shm/src/api/provider/shared_memory_provider.rs
                                                   (provider, GC, policies)
  src/commons/zenoh-shm/src/api/provider/types.rs  (alignment, layout)
  src/commons/zenoh-shm/src/watchdog/descriptor.rs (bit packing)
  src/io/zenoh-transport/src/unicast/establishment/ext/shm.rs
                                                   (SHM handshake extension)

Machine integers are modelled as Nat; wherever Rust u32 wrap-around can
occur the embedding takes the remainder modulo 2^32 explicitly. Bytes of
the wire format are modelled as Nat values. Fallible Rust code returns
Option or Except.
-/

namespace Zenoh

/-! ## Variable-length integer codec

Modelled from the spec: the integer codec of the Zenoh080 codec framework
(crate zenoh-codec, integer impls not under src/) writes integers in a
little-endian variable-length form, seven value bits per byte with a
continuation bit, least-significant group first; reading fails on
truncated input. All descriptor field writes in
src/commons/zenoh-codec/src/core/shm.rs delegate to it. -/
def encodeNatGo (fuel n : Nat) : List Nat :=
  match fuel with
  | 0 => []
  | fuel + 1 => if n < 128 then [n] else (n % 128 + 128) :: encodeNatGo fuel (n / 128)

/-- Writer entry point for one variable-length integer: the fuel `n + 1`
always suffices because the remaining value shrinks strictly each step. -/
def encodeNat (n : Nat) : List Nat := encodeNatGo (n + 1) n

/-- The writer ignores any sufficient fuel amount. -/
theorem encodeNatGo_fuel : ∀ f1 : Nat, ∀ f2 n : Nat, n < f1 → n < f2 →
    encodeNatGo f1 n = encodeNatGo f2 n := by
  intro f1
  induction f1 with
  | zero => intro f2 n h1 _; omega
  | succ f1 ih =>
    intro f2 n h1 h2
    cases f2 with
    | zero => omega
    | succ f2 =>
      show encodeNatGo (f1 + 1) n = encodeNatGo (f2 + 1) n
      unfold encodeNatGo
      by_cases h : n < 128
      · rw [if_pos h, if_pos h]
      · rw [if_neg h, if_neg h]
        have hdiv : n / 128 < n :=
          Nat.div_lt_self (by omega) (by norm_num)
        rw [ih f2 (n / 128) (by omega) (by omega)]

/-- Modelled from the spec: the matching variable-length integer reader of
the Zenoh080 codec framework (not under src/); returns the decoded value
and the unconsumed tail, or fails on truncated input. -/
def decodeNat : List Nat → Option (Nat × List Nat)
  | [] => none
  | b :: r =>
    if b < 128 then some (b, r)
    else
      match decodeNat r with
      | none => none
      | some (m, r') => some ((b - 128) + 128 * m, r')

/-- Unfolding equation for `encodeNat` below 128. -/
theorem encodeNat_lt (n : Nat) (h : n < 128) : encodeNat n = [n] := by
  unfold encodeNat encodeNatGo
  rw [if_pos h]

/-- Unfolding equation for `encodeNat` at or above 128. -/
theorem encodeNat_ge (n : Nat) (h : ¬ n < 128) :
    encodeNat n = (n % 128 + 128) :: encodeNat (n / 128) := by
  show encodeNatGo (n + 1) n = _
  unfold encodeNatGo
  rw [if_neg h]
  have hdiv : n / 128 < n := Nat.div_lt_self (by omega) (by norm_num)
  rw [encodeNatGo_fuel n (n / 128 + 1) (n / 128) (by omega) (by omega)]
  rfl

/-- Encoded integers are never empty byte strings. -/
theorem encodeNat_ne_nil (n : Nat) : encodeNat n ≠ [] := by
  by_cases h : n < 128
  · rw [encodeNat_lt n h]
    simp
  · rw [encodeNat_ge n h]
    simp

/-- Reading an encoded integer returns the integer and leaves the trailing
bytes untouched. -/
theorem decodeNat_encodeNat (n : Nat) : ∀ r, decodeNat (encodeNat n ++ r) = some (n, r) := by
  induction n using Nat.strong_induction_on with
  | _ n ih =>
    intro r
    by_cases h : n < 128
    · rw [encodeNat_lt n h]
      simp [decodeNat, h]
    · have hge : 128 ≤ n := Nat.le_of_not_lt h
      have hpos : 0 < n := Nat.lt_of_lt_of_le (by norm_num) hge
      have hdiv : n / 128 < n := Nat.div_lt_self hpos (by norm_num)
      have hnb : ¬ (n % 128 + 128 < 128) := by omega
      have harith : n % 128 + 128 - 128 + 128 * (n / 128) = n := by
        have := Nat.mod_add_div n 128
        omega
      rw [encodeNat_ge n h, List.cons_append]
      simp only [decodeNat, if_neg hnb, ih (n / 128) hdiv r, harith]

/-- Reading a strict prefix of an encoded integer fails: truncated input is
rejected, never misparsed. -/
theorem decodeNat_strictPre (n : Nat) :
    ∀ p, p <+: encodeNat n → p ≠ encodeNat n → decodeNat p = none := by
  induction n using Nat.strong_induction_on with
  | _ n ih =>
    intro p hp hne
    by_cases h : n < 128
    · rw [encodeNat_lt n h] at hp hne
      rcases hp with ⟨t, ht⟩
      cases p with
      | nil => rfl
      | cons a q =>
        simp only [List.cons_append, List.cons.injEq] at ht
        obtain ⟨rfl, hqt⟩ := ht
        rcases List.append_eq_nil.mp hqt with ⟨rfl, -⟩
        exact absurd rfl hne
    · have hge : 128 ≤ n := Nat.le_of_not_lt h
      have hpos : 0 < n := Nat.lt_of_lt_of_le (by norm_num) hge
      have hdiv : n / 128 < n := Nat.div_lt_self hpos (by norm_num)
      rw [encodeNat_ge n h] at hp hne
      cases p with
      | nil => rfl
      | cons a q =>
        rw [List.cons_prefix_cons] at hp
        obtain ⟨rfl, hq⟩ := hp
        have hqne : q ≠ encodeNat (n / 128) := fun hcontra => hne (by rw [hcontra])
        have hnb : ¬ (n % 128 + 128 < 128) := by omega
        simp only [decodeNat, if_neg hnb, ih (n / 128) hdiv q hq hqne]

/-! ## Descriptor data model

Structures from src/commons/zenoh-shm: watchdog/descriptor.rs,
api/provider/chunk.rs, and the header descriptor; integer fields are
modelled as Nat. -/

/-- Watchdog wire descriptor, from src/commons/zenoh-shm/src/watchdog/descriptor.rs. -/
structure Descriptor where
  id : Nat
  index_and_bitpos : Nat
deriving DecidableEq, Repr

/-- Header wire descriptor (segment id and array index). -/
structure HeaderDescriptor where
  id : Nat
  index : Nat
deriving DecidableEq, Repr

/-- Chunk descriptor, from src/commons/zenoh-shm/src/api/provider/chunk.rs. -/
structure ChunkDescriptor where
  segment : Nat
  chunk : Nat
  len : Nat
deriving DecidableEq, Repr

/-- On-wire buffer info. Field names and the positional order of
`SharedMemoryBufInfo::new` are pinned by the constructor call in
`SharedMemoryProvider::wrap` (shared_memory_provider.rs line 648), which
passes `(chunk.descriptor, ID, len, watchdog descriptor, header
descriptor, generation)`. -/
structure SharedMemoryBufInfo where
  data_descriptor : ChunkDescriptor
  shm_protocol : Nat
  data_len : Nat
  watchdog_descriptor : Descriptor
  header_descriptor : HeaderDescriptor
  generation : Nat
deriving DecidableEq, Repr

/-- `SharedMemoryBufInfo::new` applied positionally, as the codec reader
calls it (zenoh-codec/src/core/shm.rs lines 154-161). -/
def SharedMemoryBufInfo.new (data_descriptor : ChunkDescriptor) (shm_protocol : Nat)
    (data_len : Nat) (watchdog_descriptor : Descriptor)
    (header_descriptor : HeaderDescriptor) (generation : Nat) : SharedMemoryBufInfo :=
  { data_descriptor, shm_protocol, data_len, watchdog_descriptor, header_descriptor, generation }

/-! ## Descriptor codec (zenoh-codec/src/core/shm.rs)

Writers write the fields in the order of the `WCodec` impls; readers
consume fields in the order of the `RCodec` impls. -/

/-- WCodec for the watchdog `Descriptor`: id then index_and_bitpos. -/
def writeDescriptor (x : Descriptor) : List Nat :=
  encodeNat x.id ++ encodeNat x.index_and_bitpos

/-- WCodec for `HeaderDescriptor`: id then index. -/
def writeHeaderDescriptor (x : HeaderDescriptor) : List Nat :=
  encodeNat x.id ++ encodeNat x.index

/-- WCodec for `ChunkDescriptor`: segment, chunk, len. -/
def writeChunkDescriptor (x : ChunkDescriptor) : List Nat :=
  encodeNat x.segment ++ encodeNat x.chunk ++ encodeNat x.len

/-- WCodec for `SharedMemoryBufInfo`: the six `self.write` calls in source
order — watchdog_descriptor, header_descriptor, generation,
data_descriptor, shm_protocol, data_len. -/
def writeBufInfo (x : SharedMemoryBufInfo) : List Nat :=
  writeDescriptor x.watchdog_descriptor ++ writeHeaderDescriptor x.header_descriptor ++
    encodeNat x.generation ++ writeChunkDescriptor x.data_descriptor ++
    encodeNat x.shm_protocol ++ encodeNat x.data_len

/-- RCodec for the watchdog `Descriptor`. -/
def readDescriptor (l : List Nat) : Option (Descriptor × List Nat) :=
  (decodeNat l).bind fun a =>
  (decodeNat a.2).bind fun b =>
  some ({ id := a.1, index_and_bitpos := b.1 }, b.2)

/-- RCodec for `HeaderDescriptor`. -/
def readHeaderDescriptor (l : List Nat) : Option (HeaderDescriptor × List Nat) :=
  (decodeNat l).bind fun a =>
  (decodeNat a.2).bind fun b =>
  some ({ id := a.1, index := b.1 }, b.2)

/-- RCodec for `ChunkDescriptor`. -/
def readChunkDescriptor (l : List Nat) : Option (ChunkDescriptor × List Nat) :=
  (decodeNat l).bind fun a =>
  (decodeNat a.2).bind fun b =>
  (decodeNat b.2).bind fun c =>
  some ({ segment := a.1, chunk := b.1, len := c.1 }, c.2)

/-- RCodec for `SharedMemoryBufInfo`: six sequential reads whose element
types are forced by the positional `SharedMemoryBufInfo::new` call —
first a `ChunkDescriptor`, then protocol, then length, then the watchdog
`Descriptor`, then the `HeaderDescriptor`, then the generation. The local
variable names in the source (watchdog_descriptor first, ...) do not
match these types; the embedding follows the types. -/
def readBufInfo (l : List Nat) : Option (SharedMemoryBufInfo × List Nat) :=
  (readChunkDescriptor l).bind fun v1 =>
  (decodeNat v1.2).bind fun v2 =>
  (decodeNat v2.2).bind fun v3 =>
  (readDescriptor v3.2).bind fun v4 =>
  (readHeaderDescriptor v4.2).bind fun v5 =>
  (decodeNat v5.2).bind fun v6 =>
  some (SharedMemoryBufInfo.new v1.1 v2.1 v3.1 v4.1 v5.1 v6.1, v6.2)

/-! ## Codec composition lemmas -/

/-- Writers never produce an empty byte string (watchdog descriptor). -/
theorem writeDescriptor_ne_nil (x : Descriptor) : writeDescriptor x ≠ [] := by
  unfold writeDescriptor
  simp [encodeNat_ne_nil]

/-- Writers never produce an empty byte string (header descriptor). -/
theorem writeHeaderDescriptor_ne_nil (x : HeaderDescriptor) : writeHeaderDescriptor x ≠ [] := by
  unfold writeHeaderDescriptor
  simp [encodeNat_ne_nil]

/-- Writers never produce an empty byte string (chunk descriptor). -/
theorem writeChunkDescriptor_ne_nil (x : ChunkDescriptor) : writeChunkDescriptor x ≠ [] := by
  unfold writeChunkDescriptor
  simp [encodeNat_ne_nil]

/-- A prefix of a concatenation is a prefix of the left part, or the left
part followed by a prefix of the right part. -/
theorem prefixSplit_append {α : Type} {p a b : List α} (h : p <+: a ++ b) :
    p <+: a ∨ ∃ q, p = a ++ q ∧ q <+: b := by
  induction a generalizing p with
  | nil => exact Or.inr ⟨p, by simp, by simpa using h⟩
  | cons x xs ih =>
    cases p with
    | nil => exact Or.inl (List.nil_prefix)
    | cons y q =>
      rw [List.cons_append, List.cons_prefix_cons] at h
      obtain ⟨rfl, hq⟩ := h
      rcases ih hq with hleft | ⟨q', rfl, hq'⟩
      · exact Or.inl (List.cons_prefix_cons.mpr ⟨rfl, hleft⟩)
      · exact Or.inr ⟨q', by simp, hq'⟩

/-- Sequencing: if the first field reader consumes exactly `encA` yielding
`a` and fails on strict prefixes of `encA`, and the continuation fails on
strict prefixes of the nonempty remainder `encB`, then the sequenced
reader fails on every strict prefix of `encA ++ encB`. -/
theorem seqTrunc {α γ : Type} (encA : List Nat) (decA : List Nat → Option (α × List Nat))
    (a : α)
    (hrtA : ∀ r, decA (encA ++ r) = some (a, r))
    (hpreA : ∀ p, p <+: encA → p ≠ encA → decA p = none)
    (encB : List Nat) (hneB : encB ≠ [])
    (K : α × List Nat → Option γ)
    (hK : ∀ q, q <+: encB → q ≠ encB → K (a, q) = none)
    (p : List Nat) (hp : p <+: encA ++ encB) (hne : p ≠ encA ++ encB) :
    (decA p).bind K = none := by
  rcases prefixSplit_append hp with hleft | ⟨q, rfl, hq⟩
  · by_cases heq : p = encA
    · subst heq
      have h0 := hrtA []
      rw [List.append_nil] at h0
      rw [h0, Option.some_bind]
      exact hK [] (List.nil_prefix) (fun hc => hneB hc.symm)
    · rw [hpreA p hleft heq, Option.none_bind]
  · have hqne : q ≠ encB := fun hc => hne (by rw [hc])
    rw [hrtA q, Option.some_bind]
    exact hK q hq hqne

/-! ## Per-type round-trip and truncation theorems -/

/-- Watchdog descriptor round-trip, tail preserved. -/
theorem readDescriptor_write (x : Descriptor) :
    ∀ r, readDescriptor (writeDescriptor x ++ r) = some (x, r) := by
  intro r
  unfold readDescriptor writeDescriptor
  rw [List.append_assoc, decodeNat_encodeNat, Option.some_bind, decodeNat_encodeNat,
    Option.some_bind]

/-- Header descriptor round-trip, tail preserved. -/
theorem readHeaderDescriptor_write (x : HeaderDescriptor) :
    ∀ r, readHeaderDescriptor (writeHeaderDescriptor x ++ r) = some (x, r) := by
  intro r
  unfold readHeaderDescriptor writeHeaderDescriptor
  rw [List.append_assoc, decodeNat_encodeNat, Option.some_bind, decodeNat_encodeNat,
    Option.some_bind]

/-- Chunk descriptor round-trip, tail preserved. -/
theorem readChunkDescriptor_write (x : ChunkDescriptor) :
    ∀ r, readChunkDescriptor (writeChunkDescriptor x ++ r) = some (x, r) := by
  intro r
  unfold readChunkDescriptor writeChunkDescriptor
  rw [List.append_assoc, List.append_assoc, decodeNat_encodeNat, Option.some_bind,
    decodeNat_encodeNat, Option.some_bind, decodeNat_encodeNat, Option.some_bind]

/-- Watchdog descriptor reads fail on every strict prefix of an encoding. -/
theorem readDescriptor_strictPre (x : Descriptor) :
    ∀ p, p <+: writeDescriptor x → p ≠ writeDescriptor x → readDescriptor p = none := by
  intro p hp hne
  unfold writeDescriptor at hp hne
  exact seqTrunc (encodeNat x.id) decodeNat x.id (decodeNat_encodeNat x.id)
    (decodeNat_strictPre x.id) (encodeNat x.index_and_bitpos)
    (encodeNat_ne_nil x.index_and_bitpos) _
    (fun q hq hqne => by
      rw [show decodeNat q = none from decodeNat_strictPre x.index_and_bitpos q hq hqne,
        Option.none_bind])
    p hp hne

/-- Header descriptor reads fail on every strict prefix of an encoding. -/
theorem readHeaderDescriptor_strictPre (x : HeaderDescriptor) :
    ∀ p, p <+: writeHeaderDescriptor x → p ≠ writeHeaderDescriptor x →
      readHeaderDescriptor p = none := by
  intro p hp hne
  unfold writeHeaderDescriptor at hp hne
  exact seqTrunc (encodeNat x.id) decodeNat x.id (decodeNat_encodeNat x.id)
    (decodeNat_strictPre x.id) (encodeNat x.index) (encodeNat_ne_nil x.index) _
    (fun q hq hqne => by
      rw [show decodeNat q = none from decodeNat_strictPre x.index q hq hqne,
        Option.none_bind])
    p hp hne

/-- Chunk descriptor reads fail on every strict prefix of an encoding. -/
theorem readChunkDescriptor_strictPre (x : ChunkDescriptor) :
    ∀ p, p <+: writeChunkDescriptor x → p ≠ writeChunkDescriptor x →
      readChunkDescriptor p = none := by
  intro p hp hne
  unfold writeChunkDescriptor at hp hne
  rw [List.append_assoc] at hp hne
  exact seqTrunc (encodeNat x.segment) decodeNat x.segment (decodeNat_encodeNat x.segment)
    (decodeNat_strictPre x.segment) (encodeNat x.chunk ++ encodeNat x.len)
    (by simp [encodeNat_ne_nil]) _
    (fun q hq hqne =>
      seqTrunc (encodeNat x.chunk) decodeNat x.chunk (decodeNat_encodeNat x.chunk)
        (decodeNat_strictPre x.chunk) (encodeNat x.len) (encodeNat_ne_nil x.len) _
        (fun q' hq' hqne' => by
          rw [show decodeNat q' = none from decodeNat_strictPre x.len q' hq' hqne',
            Option.none_bind])
        q hq hqne)
    p hp hne

/-! ## The SharedMemoryBufInfo wire mismatch

The writer emits watchdog, header, generation, chunk, protocol, len; the
reader consumes chunk, protocol, len, watchdog, header, generation. The
ten encoded integers therefore re-associate: the reader parses the first
three written integers as a `ChunkDescriptor`, and so on. -/

/-- The buffer info actually produced by decoding an encoded `x`: every
field is filled from the wrong written field. -/
def scrambleBufInfo (x : SharedMemoryBufInfo) : SharedMemoryBufInfo :=
  { data_descriptor := { segment := x.watchdog_descriptor.id,
                         chunk := x.watchdog_descriptor.index_and_bitpos,
                         len := x.header_descriptor.id },
    shm_protocol := x.header_descriptor.index,
    data_len := x.generation,
    watchdog_descriptor := { id := x.data_descriptor.segment,
                             index_and_bitpos := x.data_descriptor.chunk },
    header_descriptor := { id := x.data_descriptor.len, index := x.shm_protocol },
    generation := x.data_len }

/-- The written stream regrouped along the boundaries at which the reader
consumes it. -/
theorem writeBufInfo_regroup (x : SharedMemoryBufInfo) :
    writeBufInfo x =
      writeChunkDescriptor (scrambleBufInfo x).data_descriptor ++
        (encodeNat (scrambleBufInfo x).shm_protocol ++
          (encodeNat (scrambleBufInfo x).data_len ++
            (writeDescriptor (scrambleBufInfo x).watchdog_descriptor ++
              (writeHeaderDescriptor (scrambleBufInfo x).header_descriptor ++
                encodeNat (scrambleBufInfo x).generation)))) := by
  simp [writeBufInfo, writeDescriptor, writeHeaderDescriptor, writeChunkDescriptor,
    scrambleBufInfo, List.append_assoc]

/-- Decoding an encoded buffer info succeeds and preserves the tail, but
returns the scrambled record, not the original. -/
theorem readBufInfo_write (x : SharedMemoryBufInfo) :
    ∀ r, readBufInfo (writeBufInfo x ++ r) = some (scrambleBufInfo x, r) := by
  intro r
  rw [writeBufInfo_regroup, List.append_assoc, List.append_assoc, List.append_assoc,
    List.append_assoc, List.append_assoc]
  unfold readBufInfo
  rw [readChunkDescriptor_write, Option.some_bind, decodeNat_encodeNat, Option.some_bind,
    decodeNat_encodeNat, Option.some_bind, readDescriptor_write, Option.some_bind,
    readHeaderDescriptor_write, Option.some_bind, decodeNat_encodeNat, Option.some_bind]
  rfl

/-- Buffer info reads fail on every strict prefix of an encoding. -/
theorem readBufInfo_strictPre (x : SharedMemoryBufInfo) :
    ∀ p, p <+: writeBufInfo x → p ≠ writeBufInfo x → readBufInfo p = none := by
  intro p hp hne
  rw [writeBufInfo_regroup] at hp hne
  exact seqTrunc _ readChunkDescriptor _
    (readChunkDescriptor_write (scrambleBufInfo x).data_descriptor)
    (readChunkDescriptor_strictPre (scrambleBufInfo x).data_descriptor)
    _ (by simp [encodeNat_ne_nil]) _
    (fun q1 hq1 hqne1 =>
      seqTrunc _ decodeNat _ (decodeNat_encodeNat (scrambleBufInfo x).shm_protocol)
        (decodeNat_strictPre (scrambleBufInfo x).shm_protocol)
        _ (by simp [encodeNat_ne_nil]) _
        (fun q2 hq2 hqne2 =>
          seqTrunc _ decodeNat _ (decodeNat_encodeNat (scrambleBufInfo x).data_len)
            (decodeNat_strictPre (scrambleBufInfo x).data_len)
            _ (by simp [writeDescriptor, encodeNat_ne_nil]) _
            (fun q3 hq3 hqne3 =>
              seqTrunc _ readDescriptor _
                (readDescriptor_write (scrambleBufInfo x).watchdog_descriptor)
                (readDescriptor_strictPre (scrambleBufInfo x).watchdog_descriptor)
                _ (by simp [writeHeaderDescriptor, encodeNat_ne_nil]) _
                (fun q4 hq4 hqne4 =>
                  seqTrunc _ readHeaderDescriptor _
                    (readHeaderDescriptor_write (scrambleBufInfo x).header_descriptor)
                    (readHeaderDescriptor_strictPre (scrambleBufInfo x).header_descriptor)
                    _ (encodeNat_ne_nil _) _
                    (fun q5 hq5 hqne5 => by
                      rw [show decodeNat q5 = none from
                          decodeNat_strictPre (scrambleBufInfo x).generation q5 hq5 hqne5,
                        Option.none_bind])
                    q4 hq4 hqne4)
                q3 hq3 hqne3)
            q2 hq2 hqne2)
        q1 hq1 hqne1)
    p hp hne

/-- Concrete buffer info exhibiting the wire mismatch: all ten encoded
integers distinct. -/
def c1FailingInfo : SharedMemoryBufInfo :=
  { data_descriptor := { segment := 6, chunk := 7, len := 8 },
    shm_protocol := 9, data_len := 10,
    watchdog_descriptor := { id := 1, index_and_bitpos := 2 },
    header_descriptor := { id := 3, index := 4 },
    generation := 5 }

/-- C1. The codec round-trip law fails on the code: for the
`SharedMemoryBufInfo` codec of zenoh-codec/src/core/shm.rs, decoding the
encoding of a well-formed value succeeds but returns a record with every
field taken from the wrong written field, because the writer emits
watchdog, header, generation, chunk, protocol, len while the reader
(through the positional `SharedMemoryBufInfo::new` call) consumes chunk,
protocol, len, watchdog, header, generation. Evaluated here at the
concrete failing input `c1FailingInfo`. -/
theorem c1_bufinfo_roundtrip_fails :
    readBufInfo (writeBufInfo c1FailingInfo) =
      some ({ data_descriptor := { segment := 1, chunk := 2, len := 3 },
              shm_protocol := 4, data_len := 5,
              watchdog_descriptor := { id := 6, index_and_bitpos := 7 },
              header_descriptor := { id := 8, index := 9 },
              generation := 10 }, []) ∧
    (readBufInfo (writeBufInfo c1FailingInfo)).map Prod.fst ≠ some c1FailingInfo := by
  constructor <;> decide

/-! ## Watchdog bit packing (src/commons/zenoh-shm/src/watchdog/descriptor.rs) -/

def bitposGo (fuel v : Nat) : Nat :=
  match fuel with
  | 0 => 0
  | fuel + 1 => if 1 < v then bitposGo fuel (v / 2) + 1 else 0

/-- Bit position recovered from a one-hot mask by the while loop in
`From<&OwnedDescriptor> for Descriptor` (descriptor.rs lines 33-41):
count right shifts until the value reaches 1. -/
def bitpos_of_mask (v : Nat) : Nat := bitposGo v v

/-- The loop counter ignores any sufficient fuel amount. -/
theorem bitposGo_fuel : ∀ f1 : Nat, ∀ f2 v : Nat, v ≤ f1 → v ≤ f2 →
    bitposGo f1 v = bitposGo f2 v := by
  intro f1
  induction f1 with
  | zero =>
    intro f2 v h1 _
    interval_cases v
    cases f2 with
    | zero => rfl
    | succ f2 => simp [bitposGo]
  | succ f1 ih =>
    intro f2 v h1 h2
    cases f2 with
    | zero =>
      interval_cases v
      simp [bitposGo]
    | succ f2 =>
      show bitposGo (f1 + 1) v = bitposGo (f2 + 1) v
      unfold bitposGo
      by_cases h : 1 < v
      · rw [if_pos h, if_pos h]
        have hdiv : v / 2 < v := Nat.div_lt_self (by omega) (by norm_num)
        rw [ih f2 (v / 2) (by omega) (by omega)]
      · rw [if_neg h, if_neg h]

/-- The loop inverts a one-hot mask: shifting `1` left by `b` and counting
back yields `b`. -/
theorem bitposGo_two_pow : ∀ b f : Nat, 2 ^ b ≤ f → bitposGo f (2 ^ b) = b := by
  intro b
  induction b with
  | zero =>
    intro f hf
    cases f with
    | zero => omega
    | succ f => simp [bitposGo]
  | succ b ih =>
    intro f hf
    have h2 : (2 : Nat) ≤ 2 ^ (b + 1) := by
      have := Nat.one_le_two_pow (n := b)
      rw [pow_succ]
      omega
    cases f with
    | zero => omega
    | succ f =>
      unfold bitposGo
      rw [if_pos (by omega : 1 < 2 ^ (b + 1))]
      have hdivpow : 2 ^ (b + 1) / 2 = 2 ^ b := by
        rw [pow_succ]
        exact Nat.mul_div_cancel _ (by norm_num)
      rw [hdivpow, ih f (by
        have h3 : (1 : Nat) ≤ 2 ^ b := Nat.one_le_two_pow
        have h4 : 2 ^ (b + 1) = 2 ^ b * 2 := pow_succ 2 b
        omega)]

/-- Bitpos recovery from a one-hot mask, entry-point form. -/
theorem bitpos_of_mask_shift (b : Nat) : bitpos_of_mask (1 <<< b) = b := by
  unfold bitpos_of_mask
  rw [Nat.shiftLeft_eq, Nat.one_mul]
  exact bitposGo_two_pow b (2 ^ b) (Nat.le_refl _)

/-- Watchdog slot packing from descriptor.rs line 42: `(index << 6) | bitpos`
computed on u32, hence the remainder modulo 2^32 on the shifted index. -/
def encode_pack (index bitpos : Nat) : Nat := ((index <<< 6) % 2 ^ 32) ||| bitpos

/-- Modelled from the spec: the decode side (watchdog segment attach, not
under src/) splits the packed word as `index = v >> 6`, `bitpos = v & 63`
and rebuilds the mask as `1 << bitpos`. -/
def decode_pack (v : Nat) : Nat × Nat × Nat := (v >>> 6, v &&& 63, 1 <<< (v &&& 63))

/-- Disjoint bit ranges make or into addition. -/
theorem shiftLeft_lor_eq_add (a b k : Nat) (h : b < 2 ^ k) :
    (a <<< k) ||| b = a <<< k + b := by
  apply Nat.eq_of_testBit_eq
  intro j
  rw [Nat.testBit_lor, Nat.testBit_shiftLeft, Nat.shiftLeft_eq, Nat.mul_comm a (2 ^ k),
    Nat.testBit_mul_pow_two_add _ h j]
  rcases Nat.lt_or_ge j k with hlt | hge
  · have hd : decide (j ≥ k) = false := by
      simp [Nat.not_le_of_lt hlt]
    rw [hd, if_pos hlt]
    simp
  · have hd : decide (j ≥ k) = true := by simp [hge]
    have hb : b.testBit j = false :=
      Nat.testBit_lt_two_pow (Nat.lt_of_lt_of_le h (Nat.pow_le_pow_right (by norm_num) hge))
    rw [hd, if_neg (Nat.not_lt_of_ge hge), hb]
    simp

/-- C8. Bit-pack law: for `index < 2^26` and `bitpos < 64`, packing as
`(index << 6) | bitpos` (u32) and unpacking as `(v >> 6, v & 63, 1 << (v & 63))`
recovers the original index, bit position and one-hot mask; moreover the
source's mask-to-bitpos loop inverts `1 << bitpos`. -/
theorem c8_pack_roundtrip (index bitpos : Nat)
    (hidx : index < 2 ^ 26) (hbit : bitpos < 64) :
    decode_pack (encode_pack index bitpos) = (index, bitpos, 1 <<< bitpos) ∧
    bitpos_of_mask (1 <<< bitpos) = bitpos := by
  refine ⟨?_, bitpos_of_mask_shift bitpos⟩
  have hsh : index <<< 6 = index * 64 := by
    simp [Nat.shiftLeft_eq]
  have hlt : index * 64 < 2 ^ 32 := by
    have : (2 : Nat) ^ 26 * 64 = 2 ^ 32 := by norm_num
    calc index * 64 < 2 ^ 26 * 64 := by
          exact Nat.mul_lt_mul_of_lt_of_le hidx (Nat.le_refl 64) (by norm_num)
      _ = 2 ^ 32 := this
  have henc : encode_pack index bitpos = index * 64 + bitpos := by
    unfold encode_pack
    rw [hsh, Nat.mod_eq_of_lt hlt, ← hsh,
      shiftLeft_lor_eq_add index bitpos 6 (by omega : bitpos < 2 ^ 6), hsh]
  have hmod : (index * 64 + bitpos) &&& 63 = bitpos := by
    have h := Nat.and_pow_two_sub_one_eq_mod (index * 64 + bitpos) 6
    norm_num at h
    rw [h]
    omega
  unfold decode_pack
  rw [henc, hmod, Nat.shiftRight_eq_div_pow]
  norm_num
  omega

/-- C8 witness at index 3, bitpos 5. -/
theorem c8_pack_roundtrip_witness :
    decode_pack (encode_pack 3 5) = (3, 5, 1 <<< 5) ∧ bitpos_of_mask (1 <<< 5) = 5 :=
  c8_pack_roundtrip 3 5 (by norm_num) (by norm_num)

/-! ## Allocation alignment (src/commons/zenoh-shm/src/api/provider/types.rs) -/

/-- Alignment expressed as a power-of-two exponent (types.rs line 39). -/
structure AllocAlignment where
  pow : Nat
deriving DecidableEq, Repr

/-- Rust `align_of::<u32>()`: 4 bytes. -/
def align_of_u32 : Nat := 4

/-- `AllocAlignment::default()` from types.rs lines 49-55:
`(align_of::<u32>() as f64).sqrt() as u32 - 1`. The IEEE-754 square root
of 4.0 is exactly 2.0 and the cast truncates, so the truncated natural
square root models the computation exactly at this input. -/
def allocAlignmentDefault : AllocAlignment :=
  { pow := Nat.sqrt align_of_u32 - 1 }

/-- `AllocAlignment::get_alignment_value` from types.rs lines 62-64. -/
def AllocAlignment.get_alignment_value (a : AllocAlignment) : Nat := 1 <<< a.pow

/-- Value of the truncated square root at 4. -/
theorem sqrt_align_of_u32 : Nat.sqrt align_of_u32 = 2 := by
  have h : align_of_u32 = 2 * 2 := by norm_num [align_of_u32]
  rw [h, Nat.sqrt_eq]

/-- C7 counterexample: the claim states the default alignment exponent is 0
and the alignment value 1; on the code the computation yields exponent 1
and value 2. -/
theorem c7_default_not_one :
    ¬ (allocAlignmentDefault.pow = 0 ∧ allocAlignmentDefault.get_alignment_value = 1) := by
  intro h
  have hp : allocAlignmentDefault.pow = 1 := by
    unfold allocAlignmentDefault
    rw [sqrt_align_of_u32]
  rw [hp] at h
  exact absurd h.1 (by norm_num)

/-- C7 amended. `AllocAlignment::default()`, computed as
`sqrt(align_of::<u32>())` truncated then minus one, yields alignment
exponent 1, i.e. `get_alignment_value()` equals 2 (2-byte alignment) —
still neither the natural 4-byte alignment of u32 nor the 1-byte
alignment stated in the claim. -/
theorem c7_default_alignment :
    allocAlignmentDefault.pow = 1 ∧ allocAlignmentDefault.get_alignment_value = 2 := by
  have hp : allocAlignmentDefault.pow = 1 := by
    unfold allocAlignmentDefault
    rw [sqrt_align_of_u32]
  refine ⟨hp, ?_⟩
  unfold AllocAlignment.get_alignment_value
  rw [hp]
  decide

/-! ## SHM establishment extension
(src/io/zenoh-transport/src/unicast/establishment/ext/shm.rs) -/

/-- Per-side negotiation state (`StateOpen`, shm.rs lines 139-142;
`StateAccept` is the same type, line 278). -/
structure StateOpen where
  negotiated_to_use_shm : Bool
deriving DecidableEq, Repr

/-- `StateOpen::new` (shm.rs lines 145-149): negotiation starts false. -/
def StateOpen.new : StateOpen := { negotiated_to_use_shm := false }

/-- `AcceptFsm::recv_open_syn` (shm.rs lines 360-390): on a missing
extension the state is left unchanged; on a challenge mismatch the state
is left unchanged; on a match the flag is set. `selfChallenge` is the
acceptor's own challenge read from its segment, `ext` the u64 carried by
OpenSyn. -/
def recv_open_syn (selfChallenge : Nat) (state : StateOpen) (ext : Option Nat) : StateOpen :=
  match ext with
  | none => state
  | some bobChallenge =>
    if selfChallenge ≠ bobChallenge then state
    else { state with negotiated_to_use_shm := true }

/-- `AcceptFsm::send_open_ack` (shm.rs lines 394-401): the extension value
built for OpenAck is the byte 1. -/
def send_open_ack : Nat := 1

/-- Modelled from the spec: the accept-side establishment caller (not
under src/) runs `recv_open_syn` and then attaches the SHM OpenAck
extension only when the negotiation succeeded — on mismatch the extension
is silently dropped, so no OpenAck extension is sent. -/
def accept_open_phase (selfChallenge : Nat) (state : StateOpen) (ext : Option Nat) :
    StateOpen × Option Nat :=
  let state' := recv_open_syn selfChallenge state ext
  (state', if state'.negotiated_to_use_shm then some send_open_ack else none)

/-- C4. If the challenge carried by OpenSyn differs from the acceptor's
own challenge, then after `recv_open_syn` the acceptor's state keeps
`negotiated_to_use_shm = false` and the acceptor does not send an OpenAck
carrying the byte 1. -/
theorem c4_mismatch_keeps_false (selfChallenge c : Nat) (state : StateOpen)
    (hstate : state.negotiated_to_use_shm = false) (hne : c ≠ selfChallenge) :
    (accept_open_phase selfChallenge state (some c)).1.negotiated_to_use_shm = false ∧
    (accept_open_phase selfChallenge state (some c)).2 ≠ some 1 := by
  have hrecv : recv_open_syn selfChallenge state (some c) = state := by
    simp only [recv_open_syn]
    rw [if_pos (Ne.symm hne)]
  constructor
  · show (recv_open_syn selfChallenge state (some c)).negotiated_to_use_shm = false
    rw [hrecv, hstate]
  · show (if (recv_open_syn selfChallenge state (some c)).negotiated_to_use_shm
        then some send_open_ack else none) ≠ some 1
    rw [hrecv, hstate]
    simp

/-- C4 witness: acceptor challenge 42, OpenSyn carries 7, starting from the
initial state. -/
theorem c4_mismatch_keeps_false_witness :
    (accept_open_phase 42 StateOpen.new (some 7)).1.negotiated_to_use_shm = false ∧
    (accept_open_phase 42 StateOpen.new (some 7)).2 ≠ some 1 :=
  c4_mismatch_keeps_false 42 7 StateOpen.new (by decide) (by decide)

/-! ## StateAccept codec (shm.rs lines 281-307)

The write impl emits `u8::from(negotiated_to_use_shm)`; the read impl
reads one u8 and compares it with 1. The Zenoh080 u8 codec itself is not
under src/; the spec fixes it as a single raw byte. -/

/-- WCodec for `StateAccept`: one byte, 1 for true and 0 for false. -/
def write_state_accept (s : StateOpen) : List Nat :=
  [if s.negotiated_to_use_shm then 1 else 0]

/-- RCodec for `StateAccept`: read one byte `b` (failing on empty input)
and yield the state with `negotiated_to_use_shm := (b == 1)`. -/
def read_state_accept : List Nat → Option (StateOpen × List Nat)
  | [] => none
  | b :: r => some ({ negotiated_to_use_shm := b == 1 }, r)

/-- C10. The `negotiated_to_use_shm` state codec encodes a state as
exactly one byte (1 for true, 0 for false); decoding any single byte `b`
succeeds and yields true exactly when `b = 1`; hence decode after encode
is the identity on states. -/
theorem c10_state_codec (s : StateOpen) (b : Nat) (r : List Nat) :
    (write_state_accept s).length = 1 ∧
    write_state_accept { negotiated_to_use_shm := true } = [1] ∧
    write_state_accept { negotiated_to_use_shm := false } = [0] ∧
    (∃ s', read_state_accept (b :: r) = some (s', r) ∧
      (s'.negotiated_to_use_shm = true ↔ b = 1)) ∧
    read_state_accept (write_state_accept s ++ r) = some (s, r) := by
  refine ⟨rfl, rfl, rfl, ⟨{ negotiated_to_use_shm := b == 1 }, rfl, by simp⟩, ?_⟩
  cases s with
  | mk flag =>
    cases flag <;> simp [write_state_accept, read_state_accept]

/-- C10 witness at a true state, byte 7 and a nonempty tail. -/
theorem c10_state_codec_witness :
    (∃ s', read_state_accept (7 :: [3]) = some (s', [3]) ∧
      (s'.negotiated_to_use_shm = true ↔ (7 : Nat) = 1)) ∧
    read_state_accept
        (write_state_accept { negotiated_to_use_shm := true } ++ [3]) =
      some ({ negotiated_to_use_shm := true }, [3]) :=
  ⟨(c10_state_codec { negotiated_to_use_shm := true } 7 [3]).2.2.2.1,
   (c10_state_codec { negotiated_to_use_shm := true } 7 [3]).2.2.2.2⟩

/-! ## Provider busy list and garbage collection
(src/commons/zenoh-shm/src/api/provider/shared_memory_provider.rs) -/

/-- Shared header state read by the GC scan: the two atomic fields the
scan loads (SeqCst) from the header segment. -/
structure Header where
  refcount : Nat
  watchdog_invalidated : Bool
deriving DecidableEq, Repr

/-- Busy-list entry: the chunk descriptor plus the allocated header it
points at (shared_memory_provider.rs lines 48-67; the watchdog allocation
carries no state the GC reads). -/
structure BusyChunk where
  descriptor : ChunkDescriptor
  header : Header
deriving DecidableEq, Repr

/-- `is_free_chunk` from `garbage_collect` (lines 541-547): if the
refcount is nonzero the chunk is free only when the watchdog invalidated
it; a zero refcount is always free. -/
def is_free_chunk (c : BusyChunk) : Bool :=
  if c.header.refcount ≠ 0 then c.header.watchdog_invalidated else true

/-- One `retain` iteration of `garbage_collect` (lines 551-561), threading
the accumulator (largest freed length, backend free calls in order,
retained entries in order). -/
def gc_step (acc : Nat × List ChunkDescriptor × List BusyChunk) (c : BusyChunk) :
    Nat × List ChunkDescriptor × List BusyChunk :=
  if is_free_chunk c then
    (Nat.max acc.1 c.descriptor.len, acc.2.1 ++ [c.descriptor], acc.2.2)
  else
    (acc.1, acc.2.1, acc.2.2 ++ [c])

/-- `garbage_collect` (lines 540-565): scan the busy list front to back;
free chunks are removed and handed to `backend.free`, others retained;
returns the largest freed length (0 when nothing was freed), the freed
descriptors and the retained list. -/
def garbage_collect (busy : List BusyChunk) : Nat × List ChunkDescriptor × List BusyChunk :=
  busy.foldl gc_step (0, [], [])

/-- Fold characterization of the GC scan, accumulator generalized. -/
theorem gc_fold_char (l : List BusyChunk) : ∀ acc,
    l.foldl gc_step acc =
      ((l.filter is_free_chunk).foldl (fun m c => Nat.max m c.descriptor.len) acc.1,
       acc.2.1 ++ (l.filter is_free_chunk).map BusyChunk.descriptor,
       acc.2.2 ++ l.filter (fun c => ! is_free_chunk c)) := by
  induction l with
  | nil => intro acc; simp
  | cons c l ih =>
    intro acc
    by_cases hc : is_free_chunk c
    · simp only [List.foldl_cons, gc_step, if_pos hc, ih, List.filter_cons, hc]
      simp
    · have hc' : is_free_chunk c = false := by
        revert hc
        cases is_free_chunk c <;> simp
      simp only [List.foldl_cons, gc_step, if_neg hc, ih, List.filter_cons, hc']
      simp

/-- The initial accumulator bounds a max-fold from below. -/
theorem foldl_max_init_le (l : List Nat) : ∀ a : Nat, a ≤ l.foldl Nat.max a := by
  induction l with
  | nil => intro a; exact Nat.le_refl a
  | cons b l ih =>
    intro a
    exact Nat.le_trans (Nat.le_max_left a b) (ih (Nat.max a b))

/-- Every list element bounds a max-fold from below. -/
theorem foldl_max_mem_le (l : List Nat) : ∀ a : Nat, ∀ x ∈ l, x ≤ l.foldl Nat.max a := by
  induction l with
  | nil => intro a x hx; cases hx
  | cons b l ih =>
    intro a x hx
    rcases List.mem_cons.mp hx with rfl | hx
    · exact Nat.le_trans (Nat.le_max_right a x) (foldl_max_init_le l (Nat.max a x))
    · exact ih (Nat.max a b) x hx

/-- A max-fold returns the initial value or a list element. -/
theorem foldl_max_attained (l : List Nat) : ∀ a : Nat,
    l.foldl Nat.max a = a ∨ l.foldl Nat.max a ∈ l := by
  induction l with
  | nil => intro a; exact Or.inl rfl
  | cons b l ih =>
    intro a
    rcases ih (Nat.max a b) with heq | hmem
    · rw [List.foldl_cons, heq]
      rcases Nat.le_total a b with hab | hba
      · refine Or.inr ?_
        have hm : Nat.max a b = b := Nat.max_eq_right hab
        rw [hm]
        exact List.mem_cons_self b l
      · exact Or.inl (Nat.max_eq_left hba)
    · exact Or.inr (List.mem_cons_of_mem b hmem)

/-- C3. `garbage_collect` removes from the busy list exactly the entries
whose header shows `refcount = 0` or `watchdog_invalidated = true`,
returns each such entry's chunk to `backend.free`, leaves all other
entries in place (in order), and returns the length of the largest freed
chunk, 0 when none was freed. -/
theorem c3_garbage_collect (busy : List BusyChunk) :
    (∀ c : BusyChunk,
      is_free_chunk c = (c.header.refcount == 0 || c.header.watchdog_invalidated)) ∧
    (garbage_collect busy).2.2 =
      busy.filter (fun c => !(c.header.refcount == 0 || c.header.watchdog_invalidated)) ∧
    (garbage_collect busy).2.1 =
      (busy.filter (fun c => c.header.refcount == 0 || c.header.watchdog_invalidated)).map
        BusyChunk.descriptor ∧
    (∀ d ∈ (garbage_collect busy).2.1, d.len ≤ (garbage_collect busy).1) ∧
    ((garbage_collect busy).2.1 = [] → (garbage_collect busy).1 = 0) ∧
    ((garbage_collect busy).2.1 ≠ [] →
      ∃ d ∈ (garbage_collect busy).2.1, d.len = (garbage_collect busy).1) := by
  have hfree : ∀ c : BusyChunk,
      is_free_chunk c = (c.header.refcount == 0 || c.header.watchdog_invalidated) := by
    intro c
    unfold is_free_chunk
    by_cases h : c.header.refcount = 0
    · rw [if_neg (by omega)]
      simp [h]
    · rw [if_pos h]
      simp [h]
  have hchar := gc_fold_char busy (0, [], [])
  have hfilter_not : (fun c : BusyChunk => ! is_free_chunk c) =
      (fun c : BusyChunk => !(c.header.refcount == 0 || c.header.watchdog_invalidated)) := by
    funext c
    rw [hfree c]
  have hfilter : is_free_chunk =
      (fun c : BusyChunk => c.header.refcount == 0 || c.header.watchdog_invalidated) := by
    funext c
    exact hfree c
  have hmax : (garbage_collect busy).1 =
      ((busy.filter is_free_chunk).map (fun c => c.descriptor.len)).foldl Nat.max 0 := by
    show (busy.foldl gc_step (0, [], [])).1 = _
    rw [hchar, List.foldl_map]
  have hfreed : (garbage_collect busy).2.1 =
      (busy.filter is_free_chunk).map BusyChunk.descriptor := by
    show (busy.foldl gc_step (0, [], [])).2.1 = _
    rw [hchar]
    simp
  refine ⟨hfree, ?_, ?_, ?_, ?_, ?_⟩
  · show (busy.foldl gc_step (0, [], [])).2.2 = _
    rw [hchar, ← hfilter_not]
    simp
  · rw [hfreed, hfilter]
  · intro d hd
    rw [hfreed] at hd
    rcases List.mem_map.mp hd with ⟨c, hc, rfl⟩
    rw [hmax]
    exact foldl_max_mem_le _ 0 c.descriptor.len
      (List.mem_map.mpr ⟨c, hc, rfl⟩)
  · intro hnil
    rw [hfreed] at hnil
    have hf : busy.filter is_free_chunk = [] := List.map_eq_nil_iff.mp hnil
    rw [hmax, hf]
    rfl
  · intro hne
    rw [hfreed] at hne ⊢
    rcases foldl_max_attained ((busy.filter is_free_chunk).map (fun c => c.descriptor.len)) 0
      with heq | hmem
    · rcases List.exists_mem_of_ne_nil _ hne with ⟨d0, hd0⟩
      rcases List.mem_map.mp hd0 with ⟨c0, hc0, rfl⟩
      refine ⟨c0.descriptor, hd0, ?_⟩
      have hle : c0.descriptor.len ≤ (garbage_collect busy).1 := by
        rw [hmax]
        exact foldl_max_mem_le _ 0 c0.descriptor.len (List.mem_map.mpr ⟨c0, hc0, rfl⟩)
      rw [hmax, heq] at hle ⊢
      omega
    · rcases List.mem_map.mp hmem with ⟨c0, hc0, hlen⟩
      exact ⟨c0.descriptor, List.mem_map.mpr ⟨c0, hc0, rfl⟩, by rw [hmax, hlen]⟩

/-- C3 witness: one dropped chunk (refcount 0, length 16), one invalidated
chunk (refcount 2, length 5), one live chunk (refcount 1, length 7). -/
theorem c3_garbage_collect_witness :
    (garbage_collect
        [{ descriptor := { segment := 1, chunk := 10, len := 16 },
           header := { refcount := 0, watchdog_invalidated := false } },
         { descriptor := { segment := 1, chunk := 11, len := 5 },
           header := { refcount := 2, watchdog_invalidated := true } },
         { descriptor := { segment := 1, chunk := 12, len := 7 },
           header := { refcount := 1, watchdog_invalidated := false } }]).2.1 ≠ [] ∧
    ∃ d ∈ (garbage_collect
        [{ descriptor := { segment := 1, chunk := 10, len := 16 },
           header := { refcount := 0, watchdog_invalidated := false } },
         { descriptor := { segment := 1, chunk := 11, len := 5 },
           header := { refcount := 2, watchdog_invalidated := true } },
         { descriptor := { segment := 1, chunk := 12, len := 7 },
           header := { refcount := 1, watchdog_invalidated := false } }]).2.1,
      d.len = (garbage_collect
        [{ descriptor := { segment := 1, chunk := 10, len := 16 },
           header := { refcount := 0, watchdog_invalidated := false } },
         { descriptor := { segment := 1, chunk := 11, len := 5 },
           header := { refcount := 2, watchdog_invalidated := true } },
         { descriptor := { segment := 1, chunk := 12, len := 7 },
           header := { refcount := 1, watchdog_invalidated := false } }]).1 :=
  ⟨by decide,
   (c3_garbage_collect
     [{ descriptor := { segment := 1, chunk := 10, len := 16 },
        header := { refcount := 0, watchdog_invalidated := false } },
      { descriptor := { segment := 1, chunk := 11, len := 5 },
        header := { refcount := 2, watchdog_invalidated := true } },
      { descriptor := { segment := 1, chunk := 12, len := 7 },
        header := { refcount := 1, watchdog_invalidated := false } }]).2.2.2.2.2 (by decide)⟩

/-! ## Lock discipline of garbage_collect (C5)

The source (lines 552-562) takes the busy-list mutex, runs `retain` —
whose closure calls `backend.free` for every freed chunk — and drops the
guard only after `retain` returns. The embedding records the event order. -/

/-- Events emitted by one `garbage_collect` run: busy-list mutex acquire,
one backend free per freed chunk, busy-list mutex release. -/
inductive GCEvent where
  | lockBusy : GCEvent
  | freeChunk : ChunkDescriptor → GCEvent
  | unlockBusy : GCEvent
deriving DecidableEq, Repr

/-- The backend free calls issued inside the `retain` closure, in scan
order. -/
def gc_free_events (busy : List BusyChunk) : List GCEvent :=
  busy.foldl
    (fun tr c => if is_free_chunk c then tr ++ [GCEvent.freeChunk c.descriptor] else tr) []

/-- Event trace of `garbage_collect`: the mutex is taken before the scan
(line 552) and dropped after it (line 562); every `backend.free` happens
inside the `retain` closure (line 556). -/
def garbage_collect_trace (busy : List BusyChunk) : List GCEvent :=
  GCEvent.lockBusy :: (gc_free_events busy ++ [GCEvent.unlockBusy])

/-- Number of times the busy-list lock is held when event `i` executes:
acquisitions minus releases among the preceding events. -/
def lockDepthBefore (tr : List GCEvent) (i : Nat) : Nat :=
  (tr.take i).count GCEvent.lockBusy - (tr.take i).count GCEvent.unlockBusy

/-- Fold characterization of the emitted free calls. -/
theorem gc_free_events_char (l : List BusyChunk) : ∀ acc : List GCEvent,
    l.foldl (fun tr c =>
        if is_free_chunk c then tr ++ [GCEvent.freeChunk c.descriptor] else tr) acc =
      acc ++ (l.filter is_free_chunk).map (fun c => GCEvent.freeChunk c.descriptor) := by
  induction l with
  | nil => intro acc; simp
  | cons c l ih =>
    intro acc
    by_cases hc : is_free_chunk c
    · simp only [List.foldl_cons, if_pos hc, ih, List.filter_cons, hc]
      simp
    · have hc' : is_free_chunk c = false := by
        revert hc
        cases is_free_chunk c <;> simp
      simp only [List.foldl_cons, if_neg hc, ih, List.filter_cons, hc']
      simp

/-- C5 counterexample: with a single freed chunk, the second trace event
is the backend free and the busy-list lock is held (depth 1, not 0) at
that point — the claim that the lock is released before each
`backend.free` fails on the code. -/
theorem c5_lock_not_released :
    (garbage_collect_trace
        [{ descriptor := { segment := 1, chunk := 2, len := 16 },
           header := { refcount := 0, watchdog_invalidated := false } }])[1]? =
      some (GCEvent.freeChunk { segment := 1, chunk := 2, len := 16 }) ∧
    lockDepthBefore
        (garbage_collect_trace
          [{ descriptor := { segment := 1, chunk := 2, len := 16 },
             header := { refcount := 0, watchdog_invalidated := false } }]) 1 ≠ 0 := by
  constructor <;> decide

/-- C5 amended. During `garbage_collect` the busy-list lock is held (depth
exactly 1) at every point `backend.free` is invoked; the lock is released
only once, after the whole scan, as the final trace event. -/
theorem c5_lock_held_during_free (busy : List BusyChunk) (i : Nat) (d : ChunkDescriptor)
    (h : (garbage_collect_trace busy)[i]? = some (GCEvent.freeChunk d)) :
    lockDepthBefore (garbage_collect_trace busy) i = 1 ∧
    (garbage_collect_trace busy).getLast? = some GCEvent.unlockBusy := by
  have hbody : gc_free_events busy =
      (busy.filter is_free_chunk).map (fun c => GCEvent.freeChunk c.descriptor) := by
    unfold gc_free_events
    rw [gc_free_events_char busy []]
    rfl
  have hlast : (garbage_collect_trace busy).getLast? = some GCEvent.unlockBusy := by
    unfold garbage_collect_trace
    rw [← List.cons_append]
    exact List.getLast?_concat _
  refine ⟨?_, hlast⟩
  have hlock_notin : GCEvent.lockBusy ∉ gc_free_events busy := by
    rw [hbody]
    intro hmem
    rcases List.mem_map.mp hmem with ⟨c, -, hc⟩
    cases hc
  have hunlock_notin : GCEvent.unlockBusy ∉ gc_free_events busy := by
    rw [hbody]
    intro hmem
    rcases List.mem_map.mp hmem with ⟨c, -, hc⟩
    cases hc
  cases i with
  | zero =>
    unfold garbage_collect_trace at h
    rw [List.getElem?_cons_zero] at h
    simp at h
  | succ j =>
    have hj : j < (gc_free_events busy).length := by
      by_contra hge
      push_neg at hge
      have hidx : (garbage_collect_trace busy)[j + 1]? =
          (gc_free_events busy ++ [GCEvent.unlockBusy])[j]? := by
        unfold garbage_collect_trace
        exact List.getElem?_cons_succ
      rw [hidx, List.getElem?_append_right hge] at h
      rcases Nat.lt_or_ge (j - (gc_free_events busy).length) 1 with hlt | hge1
      · have h0 : j - (gc_free_events busy).length = 0 := by omega
        rw [h0] at h
        cases h
      · rw [List.getElem?_eq_none (by simpa using hge1)] at h
        cases h
    have htake : (garbage_collect_trace busy).take (j + 1) =
        GCEvent.lockBusy :: (gc_free_events busy).take j := by
      unfold garbage_collect_trace
      rw [List.take_succ_cons, List.take_append_of_le_length (Nat.le_of_lt hj)]
    have hsub := List.take_subset j (gc_free_events busy)
    unfold lockDepthBefore
    rw [htake]
    have hcl : ((gc_free_events busy).take j).count GCEvent.lockBusy = 0 :=
      List.count_eq_zero.mpr (fun hmem => hlock_notin (hsub hmem))
    have hcu : ((gc_free_events busy).take j).count GCEvent.unlockBusy = 0 :=
      List.count_eq_zero.mpr (fun hmem => hunlock_notin (hsub hmem))
    rw [List.count_cons, List.count_cons, hcl, hcu]
    simp

/-- C5 amended witness: the single-freed-chunk trace, free event at
position 1. -/
theorem c5_lock_held_during_free_witness :
    lockDepthBefore
        (garbage_collect_trace
          [{ descriptor := { segment := 1, chunk := 2, len := 16 },
             header := { refcount := 0, watchdog_invalidated := false } }]) 1 = 1 ∧
    (garbage_collect_trace
        [{ descriptor := { segment := 1, chunk := 2, len := 16 },
           header := { refcount := 0, watchdog_invalidated := false } }]).getLast? =
      some GCEvent.unlockBusy :=
  c5_lock_held_during_free
    [{ descriptor := { segment := 1, chunk := 2, len := 16 },
       header := { refcount := 0, watchdog_invalidated := false } }]
    1 { segment := 1, chunk := 2, len := 16 } (by decide)

/-! ## Force-deallocation policies (shared_memory_provider.rs lines 172-219) -/

/-- `VecDeque::remove(1)`: the element at index 1, if any, and the deque
without it. -/
def vd_remove1 {α : Type} : List α → Option (α × List α)
  | a :: b :: rest => some (b, a :: rest)
  | _ => none

/-- `VecDeque::pop_front`. -/
def vd_pop_front {α : Type} : List α → Option (α × List α)
  | [] => none
  | a :: rest => some (a, rest)

/-- `VecDeque::pop_back`. -/
def vd_pop_back {α : Type} : List α → Option (α × List α)
  | [] => none
  | [a] => some (a, [])
  | a :: b :: rest =>
    match vd_pop_back (b :: rest) with
    | some (x, r) => some (x, a :: r)
    | none => none

/-- `DeallocOptimal::dealloc` (lines 173-189): take index 1 if present,
else the front; free the victim's descriptor; report whether anything was
deallocated. Returns (flag, new busy list, backend free calls). -/
def dealloc_optimal (busy : List BusyChunk) : Bool × List BusyChunk × List ChunkDescriptor :=
  match vd_remove1 busy with
  | some (c, rest) => (true, rest, [c.descriptor])
  | none =>
    match vd_pop_front busy with
    | some (c, rest) => (true, rest, [c.descriptor])
    | none => (false, busy, [])

/-- `DeallocYoungest::dealloc` (lines 193-205): pop the back. -/
def dealloc_youngest (busy : List BusyChunk) : Bool × List BusyChunk × List ChunkDescriptor :=
  match vd_pop_back busy with
  | some (c, rest) => (true, rest, [c.descriptor])
  | none => (false, busy, [])

/-- `DeallocEldest::dealloc` (lines 207-219): pop the front. -/
def dealloc_eldest (busy : List BusyChunk) : Bool × List BusyChunk × List ChunkDescriptor :=
  match vd_pop_front busy with
  | some (c, rest) => (true, rest, [c.descriptor])
  | none => (false, busy, [])

/-- Popping the back of a nonempty deque always succeeds. -/
theorem vd_pop_back_cons_ne_none {α : Type} :
    ∀ (rest : List α) (a : α), vd_pop_back (a :: rest) ≠ none := by
  intro rest
  induction rest with
  | nil =>
    intro a h
    simp [vd_pop_back] at h
  | cons b rest' ih =>
    intro a h
    unfold vd_pop_back at h
    rcases hrec : vd_pop_back (b :: rest') with - | p
    · exact absurd hrec (ih b)
    · rw [hrec] at h
      cases h

/-- `vd_pop_back` fails exactly on the empty deque. -/
theorem vd_pop_back_none {α : Type} (l : List α) : vd_pop_back l = none ↔ l = [] := by
  cases l with
  | nil => simp [vd_pop_back]
  | cons a rest =>
    constructor
    · intro h
      exact absurd h (vd_pop_back_cons_ne_none rest a)
    · intro h
      cases h

/-- `vd_pop_back` removes exactly one element, up to permutation. -/
theorem vd_pop_back_perm {α : Type} :
    ∀ (l : List α) (x : α) (r : List α), vd_pop_back l = some (x, r) → l.Perm (x :: r) := by
  intro l
  induction l with
  | nil =>
    intro x r h
    cases h
  | cons a rest ih =>
    cases rest with
    | nil =>
      intro x r h
      unfold vd_pop_back at h
      cases h
      exact List.Perm.refl _
    | cons b rest' =>
      intro x r h
      unfold vd_pop_back at h
      rcases hrec : vd_pop_back (b :: rest') with - | ⟨y, r2⟩
      · rw [hrec] at h
        cases h
      · rw [hrec] at h
        cases h
        have hperm := ih x r2 hrec
        exact List.Perm.trans (List.Perm.cons a hperm) (List.Perm.swap x a r2)

/-- C9. Each force-deallocation policy returns false exactly when the busy
list is empty; otherwise it removes exactly one busy chunk (chosen
regardless of the chunk header's refcount or invalidation state), calls
`backend.free` on that chunk's descriptor, and returns true. -/
theorem c9_force_dealloc (busy : List BusyChunk) :
    ((dealloc_optimal busy).1 = false ↔ busy = []) ∧
    ((dealloc_eldest busy).1 = false ↔ busy = []) ∧
    ((dealloc_youngest busy).1 = false ↔ busy = []) ∧
    (busy ≠ [] → (dealloc_optimal busy).1 = true ∧
      ∃ c, (dealloc_optimal busy).2.2 = [c.descriptor] ∧
        busy.Perm (c :: (dealloc_optimal busy).2.1)) ∧
    (busy ≠ [] → (dealloc_eldest busy).1 = true ∧
      ∃ c, (dealloc_eldest busy).2.2 = [c.descriptor] ∧
        busy.Perm (c :: (dealloc_eldest busy).2.1)) ∧
    (busy ≠ [] → (dealloc_youngest busy).1 = true ∧
      ∃ c, (dealloc_youngest busy).2.2 = [c.descriptor] ∧
        busy.Perm (c :: (dealloc_youngest busy).2.1)) := by
  refine ⟨?_, ?_, ?_, ?_, ?_, ?_⟩
  · cases busy with
    | nil => simp [dealloc_optimal, vd_remove1, vd_pop_front]
    | cons a rest =>
      cases rest with
      | nil => simp [dealloc_optimal, vd_remove1, vd_pop_front]
      | cons b rest' => simp [dealloc_optimal, vd_remove1]
  · cases busy with
    | nil => simp [dealloc_eldest, vd_pop_front]
    | cons a rest => simp [dealloc_eldest, vd_pop_front]
  · cases busy with
    | nil => simp [dealloc_youngest, vd_pop_back]
    | cons a rest =>
      rcases h : vd_pop_back (a :: rest) with - | ⟨x, r⟩
      · exact absurd h (vd_pop_back_cons_ne_none rest a)
      · simp [dealloc_youngest, h]
  · intro hne
    cases busy with
    | nil => exact absurd rfl hne
    | cons a rest =>
      cases rest with
      | nil => exact ⟨rfl, a, rfl, List.Perm.refl _⟩
      | cons b rest' => exact ⟨rfl, b, rfl, List.Perm.swap b a rest'⟩
  · intro hne
    cases busy with
    | nil => exact absurd rfl hne
    | cons a rest => exact ⟨rfl, a, rfl, List.Perm.refl _⟩
  · intro hne
    rcases h : vd_pop_back busy with - | ⟨x, r⟩
    · exact absurd ((vd_pop_back_none busy).mp h) hne
    · refine ⟨?_, x, ?_, ?_⟩
      · unfold dealloc_youngest
        rw [h]
      · unfold dealloc_youngest
        rw [h]
      · have hperm := vd_pop_back_perm busy x r h
        unfold dealloc_youngest
        rw [h]
        exact hperm

/-- C9 witness: a two-element busy list whose chunks both have nonzero
refcount and no invalidation — the policies still deallocate one. -/
theorem c9_force_dealloc_witness :
    (dealloc_optimal
        [{ descriptor := { segment := 1, chunk := 20, len := 8 },
           header := { refcount := 1, watchdog_invalidated := false } },
         { descriptor := { segment := 1, chunk := 21, len := 9 },
           header := { refcount := 3, watchdog_invalidated := false } }]).1 = true ∧
    ∃ c, (dealloc_optimal
        [{ descriptor := { segment := 1, chunk := 20, len := 8 },
           header := { refcount := 1, watchdog_invalidated := false } },
         { descriptor := { segment := 1, chunk := 21, len := 9 },
           header := { refcount := 3, watchdog_invalidated := false } }]).2.2 = [c.descriptor] ∧
      ([{ descriptor := { segment := 1, chunk := 20, len := 8 },
          header := { refcount := 1, watchdog_invalidated := false } },
        { descriptor := { segment := 1, chunk := 21, len := 9 },
          header := { refcount := 3, watchdog_invalidated := false } }] : List BusyChunk).Perm
        (c :: (dealloc_optimal
          [{ descriptor := { segment := 1, chunk := 20, len := 8 },
             header := { refcount := 1, watchdog_invalidated := false } },
           { descriptor := { segment := 1, chunk := 21, len := 9 },
             header := { refcount := 3, watchdog_invalidated := false } }]).2.1) :=
  (c9_force_dealloc
    [{ descriptor := { segment := 1, chunk := 20, len := 8 },
       header := { refcount := 1, watchdog_invalidated := false } },
     { descriptor := { segment := 1, chunk := 21, len := 9 },
       header := { refcount := 3, watchdog_invalidated := false } }]).2.2.2.1 (by decide)

/-! ## Allocation errors and the Deallocate policy
(shared_memory_provider.rs lines 291-328) -/

/-- `ZAllocError` from types.rs lines 24-29 (the `Other` payload is
dropped). -/
inductive ZAllocError where
  | needDefragment : ZAllocError
  | outOfMemory : ZAllocError
  | other : ZAllocError
deriving DecidableEq, Repr

/-- `ChunkAllocResult`: `Result<AllocatedChunk, ZAllocError>` with the
chunk reduced to its descriptor. -/
inductive ChunkAllocResult where
  | ok : ChunkDescriptor → ChunkAllocResult
  | error : ZAllocError → ChunkAllocResult
deriving DecidableEq, Repr

/-- The match arm `Err(NeedDefragment) | Err(OutOfMemory)` of the
`Deallocate` loop (line 315). -/
def retryable : ChunkAllocResult → Bool
  | .error .needDefragment => true
  | .error .outOfMemory => true
  | _ => false

/-- The `for _ in 0..N` loop of `AllocPolicy for Deallocate` (lines
312-327), instrumented with the round counter: successive `ForcePolicy`
dealloc calls are the oracle `dealloc 0, dealloc 1, ...` and successive
`AltPolicy` allocations the oracle `alt 0, alt 1, ...`. Returns the final
result together with the number of dealloc calls and of alt calls made. -/
def deallocate_loop (alt : Nat → ChunkAllocResult) (dealloc : Nat → Bool) :
    Nat → ChunkAllocResult → Nat → ChunkAllocResult × Nat × Nat
  | 0, result, i => (result, i, i)
  | n + 1, result, i =>
    if retryable result then
      if dealloc i then deallocate_loop alt dealloc n (alt i) (i + 1)
      else (result, i + 1, i)
    else (result, i, i)

/-- `Deallocate::<N, Inner, Alt, ForcePolicy>::alloc`: start from the
`InnerPolicy` result and run the loop. -/
def deallocate_alloc (N : Nat) (inner : ChunkAllocResult) (alt : Nat → ChunkAllocResult)
    (dealloc : Nat → Bool) : ChunkAllocResult × Nat × Nat :=
  deallocate_loop alt dealloc N inner 0

/-- Result of the `Deallocate` policy as the claim describes it: return a
success or `Other` error as-is; on a retryable error force a
deallocation, stopping with the current error when the forced
deallocation reports nothing to evict, and otherwise retry with `Alt`,
for at most `N` dealloc-and-retry rounds. -/
def deallocate_claimed (alt : Nat → ChunkAllocResult) (dealloc : Nat → Bool) :
    Nat → ChunkAllocResult → Nat → ChunkAllocResult
  | 0, cur, _ => cur
  | n + 1, cur, i =>
    if retryable cur then
      if dealloc i then deallocate_claimed alt dealloc n (alt i) (i + 1) else cur
    else cur

/-- Generalized invariant for the instrumented loop. -/
theorem deallocate_loop_spec (alt : Nat → ChunkAllocResult) (dealloc : Nat → Bool) :
    ∀ (n : Nat) (cur : ChunkAllocResult) (i : Nat),
      (deallocate_loop alt dealloc n cur i).1 = deallocate_claimed alt dealloc n cur i ∧
      i ≤ (deallocate_loop alt dealloc n cur i).2.1 ∧
      (deallocate_loop alt dealloc n cur i).2.1 ≤ i + n ∧
      ((deallocate_loop alt dealloc n cur i).2.2 = (deallocate_loop alt dealloc n cur i).2.1 ∨
        (deallocate_loop alt dealloc n cur i).2.2 + 1 =
          (deallocate_loop alt dealloc n cur i).2.1) ∧
      (retryable cur = false → deallocate_loop alt dealloc n cur i = (cur, i, i)) ∧
      (retryable (deallocate_loop alt dealloc n cur i).1 = false ∨
        (deallocate_loop alt dealloc n cur i).2.1 = i + n ∨
        (deallocate_loop alt dealloc n cur i).2.2 <
          (deallocate_loop alt dealloc n cur i).2.1) := by
  intro n
  induction n with
  | zero =>
    intro cur i
    have h0 : deallocate_loop alt dealloc 0 cur i = (cur, i, i) := rfl
    have hc : deallocate_claimed alt dealloc 0 cur i = cur := rfl
    rw [h0, hc]
    exact ⟨rfl, Nat.le_refl i, Nat.le_refl i, Or.inl rfl, fun _ => rfl, Or.inr (Or.inl rfl)⟩
  | succ n ih =>
    intro cur i
    have hstep : deallocate_loop alt dealloc (n + 1) cur i =
        if retryable cur then
          (if dealloc i then deallocate_loop alt dealloc n (alt i) (i + 1) else (cur, i + 1, i))
        else (cur, i, i) := rfl
    have hcstep : deallocate_claimed alt dealloc (n + 1) cur i =
        if retryable cur then
          (if dealloc i then deallocate_claimed alt dealloc n (alt i) (i + 1) else cur)
        else cur := rfl
    by_cases hr : retryable cur = true
    · by_cases hd : dealloc i = true
      · have hred : deallocate_loop alt dealloc (n + 1) cur i =
            deallocate_loop alt dealloc n (alt i) (i + 1) := by
          rw [hstep, if_pos hr, if_pos hd]
        have hcl : deallocate_claimed alt dealloc (n + 1) cur i =
            deallocate_claimed alt dealloc n (alt i) (i + 1) := by
          rw [hcstep, if_pos hr, if_pos hd]
        obtain ⟨h1, h2, h3, h4, -, h6⟩ := ih (alt i) (i + 1)
        rw [hred, hcl]
        refine ⟨h1, by omega, by omega, h4, fun hfalse => ?_, ?_⟩
        · rw [hfalse] at hr
          cases hr
        · rcases h6 with h | h | h
          · exact Or.inl h
          · exact Or.inr (Or.inl (by omega))
          · exact Or.inr (Or.inr h)
      · have hd' : dealloc i = false := by
          revert hd
          cases dealloc i <;> simp
        have hred : deallocate_loop alt dealloc (n + 1) cur i = (cur, i + 1, i) := by
          rw [hstep, if_pos hr, hd']
          rfl
        have hcl : deallocate_claimed alt dealloc (n + 1) cur i = cur := by
          rw [hcstep, if_pos hr, hd']
          rfl
        rw [hred, hcl]
        refine ⟨rfl, Nat.le_succ i, Nat.succ_le_succ (Nat.le_add_right i n), Or.inr rfl,
          fun hfalse => ?_, ?_⟩
        · rw [hfalse] at hr
          cases hr
        · exact Or.inr (Or.inr (Nat.lt_succ_self i))
    · have hr' : retryable cur = false := by
        revert hr
        cases retryable cur <;> simp
      have hred : deallocate_loop alt dealloc (n + 1) cur i = (cur, i, i) := by
        rw [hstep, hr']
        rfl
      have hcl : deallocate_claimed alt dealloc (n + 1) cur i = cur := by
        rw [hcstep, hr']
        rfl
      rw [hred, hcl]
      exact ⟨rfl, Nat.le_refl i, Nat.le_add_right i (n + 1), Or.inl rfl, fun _ => rfl,
        Or.inl hr'⟩

/-- C6. The `Deallocate` policy first takes the `Inner` result; it keeps
retrying with `Alt` after a forced deallocation while the current result
is `OutOfMemory` or `NeedDefragment`, for at most `N` dealloc-and-retry
rounds (dealloc calls ≤ N, alt calls ≤ dealloc calls); a success or
`Other` error is returned as-is without any dealloc/alt call; a forced
deallocation returning false makes it return the current error
immediately (dealloc count then exceeds the alt count); and the final
outcome equals the claim's round-by-round description
(`deallocate_claimed`). -/
theorem c6_deallocate_policy (N : Nat) (inner : ChunkAllocResult)
    (alt : Nat → ChunkAllocResult) (dealloc : Nat → Bool) :
    (deallocate_alloc N inner alt dealloc).1 = deallocate_claimed alt dealloc N inner 0 ∧
    (deallocate_alloc N inner alt dealloc).2.1 ≤ N ∧
    (deallocate_alloc N inner alt dealloc).2.2 ≤ (deallocate_alloc N inner alt dealloc).2.1 ∧
    (retryable inner = false → deallocate_alloc N inner alt dealloc = (inner, 0, 0)) ∧
    (retryable (deallocate_alloc N inner alt dealloc).1 = false ∨
      (deallocate_alloc N inner alt dealloc).2.1 = N ∨
      (deallocate_alloc N inner alt dealloc).2.2 <
        (deallocate_alloc N inner alt dealloc).2.1) := by
  obtain ⟨h1, h2, h3, h4, h5, h6⟩ := deallocate_loop_spec alt dealloc N inner 0
  have he : deallocate_alloc N inner alt dealloc = deallocate_loop alt dealloc N inner 0 := rfl
  rw [he]
  refine ⟨h1, by omega, ?_, h5, ?_⟩
  · rcases h4 with h | h <;> omega
  · rcases h6 with h | h | h
    · exact Or.inl h
    · exact Or.inr (Or.inl (by omega))
    · exact Or.inr (Or.inr h)

/-- Concrete oracles for the C6 witness: the first alt call still fails
with OutOfMemory, the second succeeds; every forced deallocation evicts. -/
def c6AltW : Nat → ChunkAllocResult := fun i =>
  if i = 0 then ChunkAllocResult.error ZAllocError.outOfMemory
  else ChunkAllocResult.ok { segment := 1, chunk := 30, len := 4 }

def c6DeallocW : Nat → Bool := fun _ => true

/-- C6 witness: a non-retryable inner result is returned untouched with
zero dealloc and alt calls. -/
theorem c6_deallocate_policy_witness :
    deallocate_alloc 2 (ChunkAllocResult.ok { segment := 1, chunk := 29, len := 4 })
        c6AltW c6DeallocW =
      (ChunkAllocResult.ok { segment := 1, chunk := 29, len := 4 }, 0, 0) :=
  (c6_deallocate_policy 2 (ChunkAllocResult.ok { segment := 1, chunk := 29, len := 4 })
    c6AltW c6DeallocW).2.2.2.1 (by decide)

/-! ## Provider alloc path (shared_memory_provider.rs lines 581-673)

`alloc_inner` first calls `alloc_resources` (header, watchdog,
confirmator registration — the three global allocators, whose outcome is
a parameter here), then runs the policy to obtain a chunk, then `wrap`s
the chunk, which unconditionally pushes the busy record. The policy is a
parameter too: it may allocate and free in the backend (GC, forced
deallocations), so it is constrained only by a contract on its effect. -/

/-- Resources produced by `alloc_resources` (lines 607-622): the header
slot and the watchdog slot. -/
structure AllocResources where
  header_slot : Nat
  watchdog_slot : Nat
deriving DecidableEq, Repr

/-- Provider-visible allocation state: the multiset of chunks currently
allocated in the backend, and the descriptors recorded in the busy list. -/
structure ProviderState where
  backendAllocated : List ChunkDescriptor
  busy : List ChunkDescriptor
deriving DecidableEq, Repr

/-- No-leak invariant: every chunk allocated in the backend is recorded in
the busy list (spec invariants 1-2 of section 4.6). -/
def allocInv (s : ProviderState) : Prop :=
  ∀ d ∈ s.backendAllocated, d ∈ s.busy

instance (s : ProviderState) : Decidable (allocInv s) := by
  unfold allocInv
  infer_instance

/-- `alloc_inner` (lines 581-605): propagate a resource-allocation
failure as `Other` before any chunk is allocated; then run the policy; on
policy failure propagate the error; on success `wrap` the chunk, which
pushes its descriptor onto the busy list (line 666) and returns the
buffer built around it. -/
def alloc_inner (resources : Except Unit AllocResources)
    (policy : ProviderState → ChunkAllocResult × ProviderState)
    (s : ProviderState) : ChunkAllocResult × ProviderState :=
  match resources with
  | .error _ => (ChunkAllocResult.error ZAllocError.other, s)
  | .ok _ =>
    match policy s with
    | (ChunkAllocResult.error e, s1) => (ChunkAllocResult.error e, s1)
    | (ChunkAllocResult.ok chunk, s1) =>
      (ChunkAllocResult.ok chunk, { s1 with busy := s1.busy ++ [chunk] })

/-- C2. `alloc_inner` leaks no chunk: resource allocation happens before
any chunk allocation, so a resource failure returns with the state
untouched and the policy never invoked; on a policy error the no-leak
invariant is preserved (given the policy's contract); and on success the
allocated chunk is both returned and recorded in the busy list, and the
invariant is preserved. -/
theorem c2_alloc_inner_no_leak (resources : Except Unit AllocResources)
    (policy : ProviderState → ChunkAllocResult × ProviderState) (s : ProviderState)
    (hInv : allocInv s)
    (hpol_err : ∀ s0 e s1, policy s0 = (ChunkAllocResult.error e, s1) →
      allocInv s0 → allocInv s1)
    (hpol_ok : ∀ s0 c s1, policy s0 = (ChunkAllocResult.ok c, s1) →
      allocInv s0 → ∀ d ∈ s1.backendAllocated, d ∈ s1.busy ∨ d = c) :
    allocInv (alloc_inner resources policy s).2 ∧
    (∀ c, (alloc_inner resources policy s).1 = ChunkAllocResult.ok c →
      c ∈ (alloc_inner resources policy s).2.busy) ∧
    (∀ u, resources = Except.error u →
      alloc_inner resources policy s = (ChunkAllocResult.error ZAllocError.other, s)) := by
  cases resources with
  | error u =>
    refine ⟨hInv, ?_, fun _ _ => rfl⟩
    intro c hc
    cases hc
  | ok res =>
    rcases hpol : policy s with ⟨r, s1⟩
    cases r with
    | error e =>
      have hred : alloc_inner (Except.ok res) policy s = (ChunkAllocResult.error e, s1) := by
        unfold alloc_inner
        rw [hpol]
      rw [hred]
      refine ⟨hpol_err s e s1 hpol hInv, ?_, ?_⟩
      · intro c hc
        cases hc
      · intro u hu
        cases hu
    | ok chunk =>
      have hred : alloc_inner (Except.ok res) policy s =
          (ChunkAllocResult.ok chunk, { s1 with busy := s1.busy ++ [chunk] }) := by
        unfold alloc_inner
        rw [hpol]
      rw [hred]
      refine ⟨?_, ?_, ?_⟩
      · intro d hd
        rcases hpol_ok s chunk s1 hpol hInv d hd with hmem | rfl
        · exact List.mem_append_left _ hmem
        · exact List.mem_append_right _ (List.mem_singleton.mpr rfl)
      · intro c hc
        cases hc
        exact List.mem_append_right _ (List.mem_singleton.mpr rfl)
      · intro u hu
        cases hu

/-- Concrete policy for the C2 witness: allocate a fixed chunk in the
backend and return it. -/
def c2PolicyW : ProviderState → ChunkAllocResult × ProviderState := fun st =>
  (ChunkAllocResult.ok { segment := 1, chunk := 40, len := 64 },
   { st with backendAllocated := st.backendAllocated ++ [{ segment := 1, chunk := 40, len := 64 }] })

/-- C2 witness: from the empty state with successful resources, the
allocated chunk ends up both returned and in the busy list, and the
invariant holds afterwards. -/
theorem c2_alloc_inner_no_leak_witness :
    allocInv (alloc_inner (Except.ok { header_slot := 0, watchdog_slot := 0 }) c2PolicyW
      { backendAllocated := [], busy := [] }).2 ∧
    (∀ c, (alloc_inner (Except.ok { header_slot := 0, watchdog_slot := 0 }) c2PolicyW
        { backendAllocated := [], busy := [] }).1 = ChunkAllocResult.ok c →
      c ∈ (alloc_inner (Except.ok { header_slot := 0, watchdog_slot := 0 }) c2PolicyW
        { backendAllocated := [], busy := [] }).2.busy) ∧
    (∀ u, (Except.ok { header_slot := 0, watchdog_slot := 0 } :
        Except Unit AllocResources) = Except.error u →
      alloc_inner (Except.ok { header_slot := 0, watchdog_slot := 0 }) c2PolicyW
          { backendAllocated := [], busy := [] } =
        (ChunkAllocResult.error ZAllocError.other, { backendAllocated := [], busy := [] })) :=
  c2_alloc_inner_no_leak (Except.ok { header_slot := 0, watchdog_slot := 0 }) c2PolicyW
    { backendAllocated := [], busy := [] }
    (by decide)
    (fun s0 e s1 h _ => by
      simp [c2PolicyW] at h)
    (fun s0 c s1 h hi d hd => by
      simp only [c2PolicyW, Prod.mk.injEq, ChunkAllocResult.ok.injEq] at h
      rcases h with ⟨rfl, rfl⟩
      rcases List.mem_append.mp hd with hmem | hmem
      · exact Or.inl (hi d hmem)
      · exact Or.inr (List.mem_singleton.mp hmem))
